import Mathlib

set_option maxHeartbeats 1000000

/-
Shallow embedding of the validation core of this repository:
src/core/errorBag.js and src/core/validator.js.

JavaScript values that the code inspects are modelled by `JsValue`;
rule outcome `data` objects by `JsData`; thrown errors / promise
rejections by `JsErr` inside `Except`.  Asynchronous (promise-valued)
rule outcomes are modelled by their eventual settled value, since the
orchestrator is single-threaded and only ever joins on them.
State mutation is modelled by explicit state passing.
-/

namespace VV

/-- A JavaScript value as far as the validator inspects one. -/
inductive JsValue where
  | null
  | undef
  | bool (b : Bool)
  | num (n : Int)
  | str (s : String)
deriving DecidableEq

/-- JavaScript truthiness for the values above. -/
def JsValue.truthy : JsValue → Bool
  | .null => false
  | .undef => false
  | .bool b => b
  | .num n => n != 0
  | .str s => s != ""

/-- The `data` payload of a rule outcome: the empty object `{}`, the value
`undefined` (reading `.data` off a boolean), or some data object,
distinguished by a tag. -/
inductive JsData where
  | empty
  | undef
  | obj (tag : Nat)
deriving DecidableEq

/-- Errors thrown or used as promise rejection reasons by the core. -/
inductive JsErr where
  | typeError (msg : String)
  | fieldNotFound (name : String)
  | unknownRule (name : String)
deriving DecidableEq

/-- A field-error record as stored in the ErrorBag (errorBag.js / validator.js
`_createFieldError`).  `id`/`vmId` are `none` for errors added through the
legacy `add` signature, whose objects carry no such properties.  `scope` is
`none` for `null`.  `regenerate` is `none` for `null` (not callable). -/
structure FieldError where
  id : Option String
  vmId : Option String
  field : String
  msg : String
  rule : String
  scope : Option String
  regenerate : Option (Unit → String)

/-- Field status flags.  Only the ones the modelled code writes are kept. -/
structure Flags where
  pending : Bool := false
  valid : Bool := false
  invalid : Bool := false
  validated : Bool := false
deriving DecidableEq

/-- A field-dependency record; it carries the target field's live value and
alias, the only parts of the target that `_test` reads. -/
structure Dependency where
  name : String
  value : JsValue
  targetAlias : Option String

/-- A Field descriptor (field.js is not among the provided sources; the shape
here is the one validator.js reads: id, vmId, name, scope, the ordered rule
map, bails, isRequired, isDisabled, rejectsFalse, alias, dependencies, value,
flags).  `rules` models the JS object `field.rules` as an ordered association
list (JS objects preserve string-key insertion order); params that are not
arrays in JS are normalised to `[]` by `_test`, so params are lists here. -/
structure Field where
  id : String
  vmId : Option String
  name : String
  scope : Option String
  rules : List (String × List JsValue)
  bails : Option Bool
  isRequired : Bool
  isDisabled : Bool
  rejectsFalse : Bool
  fieldAlias : Option String
  dependencies : List Dependency
  value : JsValue
  flags : Flags

/-- The per-field result produced by `_validate`
(`{valid, errors, id, field: name, scope}`). -/
structure FieldResult where
  valid : Bool
  errors : List FieldError
  id : String
  field : String
  scope : Option String

/-- Rule registration options (`{hasTarget, immediate, isDate}` merged over
the defaults `{hasTarget: false, immediate: true}` by `extend`). -/
structure RuleOptions where
  hasTarget : Bool := false
  immediate : Bool := true
  isDate : Bool := false
deriving DecidableEq

/-- A synchronously produced rule outcome: a boolean, or an object
`{valid, data}`. -/
inductive RuleOutcome where
  | b (val : Bool)
  | obj (valid : Bool) (data : JsData)
deriving DecidableEq

/-- The settled value of a promise-like rule outcome: a single
boolean/object, or an array of booleans/objects. -/
inductive AsyncValue where
  | single (o : RuleOutcome)
  | arr (os : List RuleOutcome)
deriving DecidableEq

/-- What a registered validate function returns: a synchronous outcome or a
promise (modelled by its eventual settled value). -/
inductive RuleRet where
  | sync (o : RuleOutcome)
  | promise (v : AsyncValue)

/-- A registry entry `{validate, options}`. -/
structure RuleEntry where
  validate : JsValue → List JsValue → RuleRet
  options : RuleOptions

/-- The process-wide RULES mapping, keyed by rule name. -/
def Registry := List (String × RuleEntry)

/-- The dictionary collaborator (interface only; see spec section 6).
`getAttribute` takes locale, name and fallback; `getFieldMessage` takes
locale, field name, rule name, display name, params and data. -/
structure Dictionary where
  getAttribute : String → JsValue → JsValue → JsValue
  getFieldMessage : String → String → String → JsValue → List JsValue → JsData → String
  getDateFormat : String → JsValue

/-- The constant parts of a Validator instance plus its process-wide
collaborators: the RULES registry, the dictionary, the current locale, the
`fastExit` option and the `strict` flag. -/
structure Cfg where
  registry : Registry
  dict : Dictionary
  locale : String
  fastExit : Bool
  strict : Bool

/-- Looks a rule up in the registry (`RULES[name]`). -/
def lookupRule (cfg : Cfg) (name : String) : Option RuleEntry :=
  (cfg.registry.find? (fun p => p.1 == name)).map (fun p => p.2)

/-- The mutable state of a Validator: its FieldBag, its ErrorBag and the
paused flag. -/
structure VState where
  fields : List Field
  errors : List FieldError
  paused : Bool

/-- The rule object `{name, params, options}` that `_validate` builds and
passes to `_test`, `_createFieldError` and message formatting. -/
structure RuleRef where
  name : String
  params : List JsValue
  options : RuleOptions

namespace ErrorBag

/-- errorBag.js `_normalizeError` for one error: `scope` defaults to `null`;
with `scope : Option String` in the model this is the identity. -/
def normalizeError (e : FieldError) : FieldError :=
  { e with scope := e.scope }

/-- The error record built by the deprecated multi-argument `add(field, msg,
rule, scope)` signature: `scope` defaults to `null`, `regenerate` is `null`,
and no `id`/`vmId` properties exist on the object. -/
def mkLegacyError (field : String) (msg : String) (rule : String) (scope : Option String) : FieldError :=
  { id := none, vmId := none, field := field, msg := msg, rule := rule,
    scope := scope, regenerate := none }

/-- errorBag.js `add` for a list of errors: appends after normalising. -/
def add (items : List FieldError) (errors : List FieldError) : List FieldError :=
  items ++ errors.map normalizeError

/-- errorBag.js `regenerate`: rewrites each item's `msg` to
`i.regenerate()` when that closure is callable, otherwise keeps `msg`. -/
def regenerate (items : List FieldError) : List FieldError :=
  items.map fun i =>
    { i with msg := match i.regenerate with
                    | some f => f ()
                    | none => i.msg }

/-- Removes the first item whose `id` equals the given id; this is the
`splice(indexOf(item), 1)` of errorBag.js `update`, where `item` is the
first id match found by `find`. -/
def removeFirstById (id : String) : List FieldError → List FieldError
  | [] => []
  | x :: rest => if x.id = some id then rest else x :: removeFirstById id rest

/-- errorBag.js `update(id, error)`: finds the first item with the id; if
none, no change; otherwise splices it out, overwrites its scope with the
new one and pushes it at the end. -/
def update (id : String) (sc : Option String) (items : List FieldError) : List FieldError :=
  match items.find? (fun i => i.id == some id) with
  | none => items
  | some item => removeFirstById id items ++ [{ item with scope := sc }]

/-- Character class `[A-Za-z0-9_]`, the regex `\w`. -/
def isWordChar (c : Char) : Bool := c.isAlphanum || c == '_'

/-- Character class `[\w-]` (a selector scope segment character). -/
def isSegChar (c : Char) : Bool := isWordChar c || c == '-'

/-- Character class `[\w-.]` (a selector name character). -/
def isNameChar (c : Char) : Bool := isSegChar c || c == '.'

/-- The optional `(:\w+)` group at the end of the selector regex: a colon
followed by at least one word character, else no rule constraint. -/
def parseRule : List Char → Option String
  | ':' :: rest =>
    let r := rest.takeWhile isWordChar
    if r = [] then none else some (String.mk r)
  | _ => none

/-- The selector regex of errorBag.js `_makeCandidateFilters`,
`((?:[\w-])+\.)?((?:[\w-.])+)(:\w+)?`, unanchored with greedy backtracking:
the match starts at the first `[\w-.]` character; the optional scope group
takes the maximal `[\w-]` run when a literal `.` follows it and at least one
`[\w-.]` character follows that dot (otherwise it is dropped and the dots
fall into the name group); the name group is the maximal `[\w-.]` run; a
trailing `:\w+` yields the rule constraint.  `none` models a null match
(no `[\w-.]` character at all), which makes the destructuring in the
source throw. -/
def parseSelectorChars (cs0 : List Char) : Option (Option String × String × Option String) :=
  let cs := cs0.dropWhile (fun c => !isNameChar c)
  match cs with
  | [] => none
  | _ :: _ =>
    let run := cs.takeWhile isSegChar
    match cs.drop run.length with
    | '.' :: rest2 =>
      if run ≠ [] ∧ rest2.takeWhile isNameChar ≠ [] then
        let name := rest2.takeWhile isNameChar
        some (some (String.mk run), String.mk name, parseRule (rest2.drop name.length))
      else
        let name := cs.takeWhile isNameChar
        some (none, String.mk name, parseRule (cs.drop name.length))
    | _ =>
      let name := cs.takeWhile isNameChar
      some (none, String.mk name, parseRule (cs.drop name.length))

/-- The `matchesRule` predicate: exact rule match when a rule was parsed,
else always true. -/
def mkMatchesRule (rl : Option String) (item : FieldError) : Bool :=
  match rl with
  | some r => item.rule == r
  | none => true

/-- The `isPrimary` predicate of `_makeCandidateFilters`: exact name, exact
rule (if specified), and exact scope — a selector without scope only
matches items whose scope is null. -/
def mkIsPrimary (sc : Option String) (nm : String) (rl : Option String) (item : FieldError) : Bool :=
  (item.field == nm) && mkMatchesRule rl item &&
    (match sc with
     | some s => item.scope == some s
     | none => item.scope.isNone)

/-- The string `${scope}.${name}` of the `isAlt` predicate; a JS template
literal renders an undefined scope as the text "undefined". -/
def altFieldName (sc : Option String) (nm : String) : String :=
  (match sc with
   | some s => s
   | none => "undefined") ++ "." ++ nm

/-- The `isAlt` predicate of `_makeCandidateFilters`: rule match plus field
name literally equal to `${scope}.${name}`. -/
def mkIsAlt (sc : Option String) (nm : String) (rl : Option String) (item : FieldError) : Bool :=
  mkMatchesRule rl item && (item.field == altFieldName sc nm)

/-- What `_makeCandidateFilters` returns: normally the record
`{isPrimary, isAlt}`; for a `#`-selector the source returns a bare function
instead of a record (`return item => matchesRule(item) && (item => ...)`),
whose inner arrow — the only place the id is mentioned — is used as a
truthy value, so the bare function reduces to the rule check alone. -/
inductive Filters where
  | record (isP : FieldError → Bool) (isA : FieldError → Bool)
  | bare (f : FieldError → Bool)

/-- errorBag.js `_makeCandidateFilters`.  `none` models the selector regex
matching nothing, in which case the array destructuring of `null` in the
source throws a TypeError. -/
def makeCandidateFilters (selector : String) : Option Filters :=
  match parseSelectorChars selector.toList with
  | none => none
  | some (sc, nm, rl) =>
    if selector.toList.head? = some '#' then
      some (.bare (mkMatchesRule rl))
    else
      some (.record (mkIsPrimary sc nm rl) (mkIsAlt sc nm rl))

/-- The reduce of errorBag.js `_match`, faithfully; the accumulator object
`{primary?, alt?}` is carried as the two parameters `prim` and `alt`.  Once
a primary match is recorded, later items are skipped and the primary is
returned at the last item; otherwise each item may record itself as primary
and/or alt; at the last item the primary, else the last-recorded alt, is
returned.  On an empty list the JS reduce returns its initial `{}`
accumulator, observed by every caller as no match; that is `none` here. -/
def matchFold (p a : FieldError → Bool) (prim alt : Option FieldError) : List FieldError → Option FieldError
  | [] => none
  | [last] =>
    if prim.isSome then prim
    else
      let prim1 := if p last then some last else prim
      let alt1 := if a last then some last else alt
      match prim1 with
      | some x => some x
      | none => alt1
  | x :: y :: rest =>
    if prim.isSome then matchFold p a prim alt (y :: rest)
    else
      let prim1 := if p x then some x else prim
      let alt1 := if a x then some x else alt
      matchFold p a prim1 alt1 (y :: rest)

/-- errorBag.js `_match` (selector non-null at every call site modelled
here).  A null regex match makes the destructuring of
`_makeCandidateFilters`'s result throw; a `#`-selector makes the source
destructure a bare function, so `isPrimary` is `undefined` and the first
call `isPrimary(item)` inside the reduce throws — except on an empty bag,
where the reduce never runs its callback. -/
def matchSelector (selector : String) (items : List FieldError) : Except JsErr (Option FieldError) :=
  match makeCandidateFilters selector with
  | none => .error (.typeError "cannot destructure null")
  | some (.bare _) =>
    if items.isEmpty then .ok none
    else .error (.typeError "isPrimary is not a function")
  | some (.record p a) => .ok (matchFold p a none none items)

/-- errorBag.js `first(field, scope)`: builds the selector
(`scope.field` when a scope is given) and takes the matched item's `msg`. -/
def first (field : String) (scope : Option String) (items : List FieldError) : Except JsErr (Option String) :=
  let selector := match scope with
                  | none => field
                  | some sc => sc ++ "." ++ field
  (matchSelector selector items).map (fun m => m.map FieldError.msg)

/-- errorBag.js `remove(field, scope)`: deletes every `isPrimary` match.
The same destructuring as in `_match` applies, so a `#`-selector throws on
any non-empty bag. -/
def remove (field : String) (scope : Option String) (items : List FieldError) : Except JsErr (List FieldError) :=
  let selector := match scope with
                  | none => field
                  | some sc => sc ++ "." ++ field
  match makeCandidateFilters selector with
  | none => .error (.typeError "cannot destructure null")
  | some (.bare _) =>
    if items.isEmpty then .ok items
    else .error (.typeError "isPrimary is not a function")
  | some (.record p _) => .ok (items.filter (fun i => !(p i)))

/-- errorBag.js `collect(field, scope, map)` with a field given (the
grouping branch without a field is not modelled): returns every `isPrimary`
match (the `map` flag only projects `msg` over this list). -/
def collectField (field : String) (scope : Option String) (items : List FieldError) : Except JsErr (List FieldError) :=
  let selector := match scope with
                  | none => field
                  | some sc => sc ++ "." ++ field
  match makeCandidateFilters selector with
  | none => .error (.typeError "cannot destructure null")
  | some (.bare _) =>
    if items.isEmpty then .ok []
    else .error (.typeError "isPrimary is not a function")
  | some (.record p _) => .ok (items.filter p)

/-- The declarative two-tier selection policy: the earliest item satisfying
the primary predicate, else the last item satisfying the alt predicate. -/
def lastMatch (a : FieldError → Bool) : List FieldError → Option FieldError
  | [] => none
  | x :: rest =>
    match lastMatch a rest with
    | some e => some e
    | none => if a x then some x else none

/-- First primary match, else last alt match, else nothing. -/
def firstMatchSpec (p a : FieldError → Bool) (items : List FieldError) : Option FieldError :=
  match items.find? p with
  | some e => some e
  | none => lastMatch a items

end ErrorBag

namespace Validator

/-- validator.js `_shouldSkip`: a field with `bails === false` always runs
the pipeline; otherwise disabled fields are skipped, and so are
not-required fields whose value is null, undefined or the empty string. -/
def shouldSkip (field : Field) (value : JsValue) : Bool :=
  if field.bails = some false then false
  else if field.isDisabled then true
  else !field.isRequired &&
    (match value with
     | .null => true
     | .undef => true
     | .str s => s == ""
     | _ => false)

/-- validator.js `_shouldBail`: the field's own `bails`, if configured,
else the validator-wide `fastExit`. -/
def shouldBail (cfg : Cfg) (field : Field) : Bool :=
  match field.bails with
  | some b => b
  | none => cfg.fastExit

/-- validator.js `_getDateFormat`: the first `date_format` rule parameter if
it is truthy, else the dictionary's locale date format. -/
def getDateFormat (cfg : Cfg) (rules : List (String × List JsValue)) : JsValue :=
  let format : JsValue :=
    match (rules.find? (fun p => p.1 == "date_format")).map (fun p => p.2) with
    | some ps =>
      match ps.head? with
      | some v => v
      | none => JsValue.undef
    | none => JsValue.undef
  if format.truthy then format else cfg.dict.getDateFormat cfg.locale

/-- validator.js `_getFieldDisplayName`: the field's truthy alias, else the
dictionary attribute for the field name with the raw name as fallback. -/
def getFieldDisplayName (cfg : Cfg) (field : Field) : JsValue :=
  match field.fieldAlias with
  | some a =>
    if a == "" then cfg.dict.getAttribute cfg.locale (JsValue.str field.name) (JsValue.str field.name)
    else JsValue.str a
  | none => cfg.dict.getAttribute cfg.locale (JsValue.str field.name) (JsValue.str field.name)

/-- validator.js `_getLocalizedParams`: for a target rule with a truthy
first parameter, replace it with the truthy target name or its dictionary
attribute; otherwise the original params. -/
def getLocalizedParams (cfg : Cfg) (rule : RuleRef) (targetName : Option String) : List JsValue :=
  match rule.params.head? with
  | some p0 =>
    if rule.options.hasTarget && p0.truthy then
      let localized :=
        match targetName with
        | some tn =>
          if tn == "" then cfg.dict.getAttribute cfg.locale p0 p0 else JsValue.str tn
        | none => cfg.dict.getAttribute cfg.locale p0 p0
      localized :: rule.params.drop 1
    else rule.params
  | none => rule.params

/-- validator.js `_formatErrorMessage`: display name, localized params,
then the dictionary field message. -/
def formatErrorMessage (cfg : Cfg) (field : Field) (rule : RuleRef) (data : JsData) (targetName : Option String) : String :=
  let name := getFieldDisplayName cfg field
  let params := getLocalizedParams cfg rule targetName
  cfg.dict.getFieldMessage cfg.locale field.name rule.name name params data

/-- validator.js `_createFieldError`. -/
def createFieldError (cfg : Cfg) (field : Field) (rule : RuleRef) (data : JsData) (targetName : Option String) : FieldError :=
  { id := some field.id,
    vmId := field.vmId,
    field := field.name,
    msg := formatErrorMessage cfg field rule data targetName,
    rule := rule.name,
    scope := field.scope,
    regenerate := some (fun _ => formatErrorMessage cfg field rule data targetName) }

/-- The parameter preparation of `_test`: target substitution for target
rules (using the dependency record of the same rule name), the
`required`/`rejectsFalse` default, and the appended date format for
date-aware rules other than `date_format`.  Returns the prepared params
and the target name. -/
def buildParams (cfg : Cfg) (field : Field) (name : String) (options : RuleOptions) (params0 : List JsValue) : List JsValue × Option String :=
  let pt :=
    if options.hasTarget then
      match field.dependencies.find? (fun d => d.name == name) with
      | some t => (t.value :: params0.drop 1, t.targetAlias)
      | none => (params0, none)
    else if name == "required" && field.rejectsFalse then
      ((if params0.isEmpty then [JsValue.bool true] else params0), none)
    else (params0, none)
  if options.isDate && !(name == "date_format") then
    (pt.1 ++ [getDateFormat cfg field.rules], pt.2)
  else pt

/-- The boolean reading of one outcome, `isObject(t) ? t.valid : t`. -/
def outcomeValid : RuleOutcome → Bool
  | .b v => v
  | .obj v _ => v

/-- The `data` reading of one outcome: a boolean has no `data` property, so
reading it yields undefined. -/
def outcomeData : RuleOutcome → JsData
  | .b _ => .undef
  | .obj _ d => d

/-- What `_test` produces: a rejected promise (unknown rule), a plain
synchronous `{valid, errors}` result, or a promise resolving to
`{valid, errors}` (modelled by its settled value). -/
inductive TestResult where
  | rejected (e : JsErr)
  | sync (valid : Bool) (errors : List FieldError)
  | async (valid : Bool) (errors : List FieldError)

/-- validator.js `_test`.  Unknown rule names reject.  A promise-like
outcome is normalised in the `then` callback: an array is AND-reduced over
`outcomeValid` while `data` keeps its initial `{}` value; a single outcome
contributes its own valid flag and its `data` reading.  A synchronous
boolean is wrapped as `{valid, data: {}}`.  On invalid, a FieldError is
created from the rule object, the data and the target name.  (The source's
`_validate` passes the registry entry's options inside the rule object; the
lookup is done here, which agrees with it for every reachable call.) -/
def testRule (cfg : Cfg) (field : Field) (value : JsValue) (name : String) (ruleParams : List JsValue) : TestResult :=
  match lookupRule cfg name with
  | none => .rejected (.unknownRule name)
  | some entry =>
    let pt := buildParams cfg field name entry.options ruleParams
    let rr : RuleRef := { name := name, params := ruleParams, options := entry.options }
    match entry.validate value pt.1 with
    | .promise (.arr os) =>
      let allValid := os.all outcomeValid
      .async allValid
        (if allValid then [] else [createFieldError cfg field rr JsData.empty pt.2])
    | .promise (.single o) =>
      let v := outcomeValid o
      .async v
        (if v then [] else [createFieldError cfg field rr (outcomeData o) pt.2])
    | .sync o =>
      let v := outcomeValid o
      let data := match o with
                  | .b _ => JsData.empty
                  | .obj _ d => d
      .sync v (if v then [] else [createFieldError cfg field rr data pt.2])

/-- One entry of the `promises` array of `_validate`: a promise that is
already rejected, or one resolving to `{valid, errors}` (synchronous
results are promisified into this same shape). -/
inductive Settled where
  | rejectedP (e : JsErr)
  | resolved (valid : Bool) (errors : List FieldError)

/-- Promisification of a test result (rejections and async results are
pushed as they are, synchronous results via `new Promise(resolve => ...)`). -/
def settle : TestResult → Settled
  | .rejected e => .rejectedP e
  | .sync v es => .resolved v es
  | .async v es => .resolved v es

/-- `Promise.all`: the first rejection wins, otherwise the list of
resolutions in order. -/
def promiseAll : List Settled → Except JsErr (List (Bool × List FieldError))
  | [] => .ok []
  | .rejectedP e :: _ => .error e
  | .resolved v es :: rest => (promiseAll rest).map (fun l => (v, es) :: l)

/-- The state built by the `.some(...)` scan of `_validate`: the promises
pushed so far, the errors recorded by an early bail, the early-exit flag,
and (instrumentation of the embedding) the names of the rules whose
registered validate function was actually invoked, in invocation order. -/
structure LoopOut where
  promises : List Settled
  errors : List FieldError
  isExitEarly : Bool
  invoked : List String

/-- The `.some(...)` scan of `_validate` over the selected rules, in
declaration order: promise-like results (rejections included) are pushed;
a synchronously invalid result records its errors and stops the scan when
bail is active; any other synchronous result is promisified and pushed. -/
def validateLoop (cfg : Cfg) (field : Field) (value : JsValue) (bail : Bool) : List (String × List JsValue) → LoopOut
  | [] => ⟨[], [], false, []⟩
  | (name, params) :: rest =>
    let inv : List String := if (lookupRule cfg name).isSome then [name] else []
    match testRule cfg field value name params with
    | .rejected e =>
      let r := validateLoop cfg field value bail rest
      ⟨.rejectedP e :: r.promises, r.errors, r.isExitEarly, inv ++ r.invoked⟩
    | .async v es =>
      let r := validateLoop cfg field value bail rest
      ⟨.resolved v es :: r.promises, r.errors, r.isExitEarly, inv ++ r.invoked⟩
    | .sync v es =>
      if !v && bail then ⟨[], es, true, inv⟩
      else
        let r := validateLoop cfg field value bail rest
        ⟨.resolved v es :: r.promises, r.errors, r.isExitEarly, inv ++ r.invoked⟩

/-- The reduce that aggregates the awaited results: errors of invalid
results are appended, validity is AND-combined. -/
def aggregate (init : FieldResult) (rs : List (Bool × List FieldError)) : FieldResult :=
  rs.foldl
    (fun prev v =>
      { prev with
        errors := prev.errors ++ (if v.1 then [] else v.2),
        valid := prev.valid && v.1 })
    init

/-- validator.js `_validate`: skip policy, rule selection (an initial pass
keeps only rules whose registry options say `immediate`, unknown rules
kept), the bail scan, then either the early-exit result — note that the
promises collected before the bail are dropped without being awaited — or
the `Promise.all` join and aggregation.  The second component lists the
rules whose validate function was invoked. -/
def validateField (cfg : Cfg) (field : Field) (value : JsValue) (initial : Bool) : Except JsErr FieldResult × List String :=
  if shouldSkip field value then
    (.ok { valid := true, id := field.id, field := field.name, scope := field.scope, errors := [] }, [])
  else
    let selected := field.rules.filter fun rp =>
      if !initial then true
      else
        match lookupRule cfg rp.1 with
        | none => true
        | some e => e.options.immediate
    let r := validateLoop cfg field value (shouldBail cfg field) selected
    if r.isExitEarly then
      (.ok { valid := false, errors := r.errors, id := field.id, field := field.name, scope := field.scope }, r.invoked)
    else
      match promiseAll r.promises with
      | .error e => (.error e, r.invoked)
      | .ok rs =>
        (.ok (aggregate { valid := true, errors := r.errors, id := field.id, field := field.name, scope := field.scope } rs), r.invoked)

/-- Modelled from the spec (section 4.3): a FieldBag matcher object;
fieldBag.js is not among the provided sources.  Criteria left `none` act as
wildcards; the scope criterion, when present, compares exactly, `some none`
selecting unscoped fields.  The ownerId criterion is omitted because every
call modelled here passes an undefined ownerId, a wildcard. -/
structure FieldMatcher where
  id : Option String := none
  name : Option String := none
  scope : Option (Option String) := none

/-- Modelled from the spec (section 4.3): whether a field satisfies every
given criterion of one matcher. -/
def fieldMatches (f : Field) (m : FieldMatcher) : Bool :=
  (match m.id with
   | some i => f.id == i
   | none => true) &&
  (match m.name with
   | some n => f.name == n
   | none => true) &&
  (match m.scope with
   | some sc => f.scope == sc
   | none => true)

/-- Modelled from the spec (section 4.3): `FieldBag.find`, first match in
insertion order. -/
def findField (fields : List Field) (m : FieldMatcher) : Option Field :=
  fields.find? (fun f => fieldMatches f m)

/-- Modelled from the spec (section 4.3): `FieldBag.filter` with an
OR-combined array of matchers, preserving order. -/
def filterFields (fields : List Field) (ms : List FieldMatcher) : List Field :=
  fields.filter (fun f => ms.any (fieldMatches f))

/-- JavaScript `String.prototype.split('.')` on a character list. -/
def splitOnDot : List Char → List (List Char)
  | [] => [[]]
  | c :: rest =>
    if c = '.' then [] :: splitOnDot rest
    else
      match splitOnDot rest with
      | [] => [[c]]
      | g :: gs => (c :: g) :: gs

/-- validator.js `_resolveField` at the call sites of `validate`, where the
scope argument is undefined: `#id` lookup; else, when the name contains a
dot, first segment as scope and the rest re-joined as name; else, or on a
miss, an unscoped lookup by the full name. -/
def resolveField (fields : List Field) (sel : String) : Option Field :=
  if sel.toList.head? = some '#' then
    findField fields { id := some (String.mk (sel.toList.drop 1)) }
  else if sel.toList.contains '.' then
    match splitOnDot sel.toList with
    | [] => findField fields { name := some sel, scope := some none }
    | s0 :: rest =>
      match findField fields { name := some (String.intercalate "." (rest.map String.mk)), scope := some (some (String.mk s0)) } with
      | some f => some f
      | none => findField fields { name := some sel, scope := some none }
  else findField fields { name := some sel, scope := some none }

/-- validator.js `_handleFieldNotFound` (with an undefined scope): resolves
true when not strict, else rejects with the field-not-found error. -/
def handleFieldNotFound (cfg : Cfg) (name : String) : Except JsErr Bool :=
  if !cfg.strict then .ok true
  else .error (.fieldNotFound name)

/-- The browser global `name` (window.name, the empty string by default):
the source's `validate` passes the free variable `name` — not the selector —
to `_handleFieldNotFound`. -/
def globalName : String := ""

/-- Sets `field.flags.pending := true` on the field with the given id
(`field.flags.pending = true` in `validate`). -/
def markPending (fields : List Field) (id : String) : List Field :=
  fields.map fun f =>
    if f.id = id then { f with flags := { f.flags with pending := true } } else f

/-- The sequential error-removal loop of `_handleValidationResults`
(`results.forEach(result => this.errors.remove(result.field, result.scope))`):
a thrown removal stops the loop, keeping the removals already done. -/
def removeBySelectorLoop : List FieldResult → List FieldError → List FieldError × Option JsErr
  | [], items => (items, none)
  | r :: rest, items =>
    match ErrorBag.remove r.field r.scope items with
    | .ok items2 => removeBySelectorLoop rest items2
    | .error e => (items, some e)

/-- validator.js `_handleValidationResults`: purge errors by the result
ids, then by each result's name and scope, then append all new errors, then
write `{pending: false, valid, validated: true}` onto each corresponding
field.  A throw in the selector-removal loop leaves the state reached so
far and surfaces the error (second component). -/
def handleValidationResults (st : VState) (results : List FieldResult) : VState × Option JsErr :=
  let ids := results.map (fun r => r.id)
  let afterById := st.errors.filter fun i =>
    match i.id with
    | some x => !(ids.contains x)
    | none => true
  let removed := removeBySelectorLoop results afterById
  match removed.2 with
  | some e => ({ st with errors := removed.1 }, some e)
  | none =>
    let allErrors := results.foldl (fun acc r => acc ++ r.errors) []
    let fields2 := st.fields.map fun f =>
      match results.find? (fun r => r.id == f.id) with
      | some r => { f with flags := { f.flags with pending := false, valid := r.valid, validated := true } }
      | none => f
    ({ st with errors := ErrorBag.add removed.1 allErrors, fields := fields2 }, none)

/-- The `values` overloads accepted by `validateAll`: undefined, a scope
name, a name-to-value mapping, or an array of names. -/
inductive ValuesArg where
  | noneV
  | scope (s : String)
  | mapV (m : List (String × JsValue))
  | arr (names : List String)

/-- Reads `values[field.name]` from a provided mapping (undefined when the
key is absent). -/
def providedValue (m : List (String × JsValue)) (name : String) : JsValue :=
  match (m.find? (fun kv => kv.1 == name)).map (fun kv => kv.2) with
  | some v => v
  | none => JsValue.undef

/-- Runs `_validate` over the selected fields (all launched, as
`Promise.all` receives every promise), collecting results and the
concatenated invocation lists. -/
def runAll (cfg : Cfg) (fields : List Field) (getValue : Field → JsValue) : List (Except JsErr FieldResult) × List String :=
  let runs := fields.map (fun f => validateField cfg f (getValue f) false)
  (runs.map (fun r => r.1), runs.foldl (fun acc r => acc ++ r.2) [])

/-- `Promise.all` over per-field validations: first rejection, else all
results in order. -/
def collectAll : List (Except JsErr FieldResult) → Except JsErr (List FieldResult)
  | [] => .ok []
  | .error e :: _ => .error e
  | .ok x :: rest => (collectAll rest).map (fun l => x :: l)

/-- validator.js `validateAll`: a no-op resolving true while paused;
otherwise builds the matcher from the `values` overload, validates every
matching field concurrently (provided values are used instead of the
fields' own values for the mapping overload), joins, and unless silent runs
one batched result-handling pass; resolves the AND of all results. -/
def validateAll (cfg : Cfg) (st : VState) (values : ValuesArg) (silent : Bool) : Except JsErr Bool × VState × List String :=
  if st.paused then (.ok true, st, [])
  else
    let matcher : List FieldMatcher :=
      match values with
      | .noneV => [{ scope := some none }]
      | .scope s => [{ scope := some (some s) }]
      | .mapV m => m.map (fun kv => { name := some kv.1, scope := some none })
      | .arr names => names.map (fun k => { name := some k })
    let selected := filterFields st.fields matcher
    let getValue : Field → JsValue :=
      match values with
      | .mapV m => fun f => providedValue m f.name
      | _ => fun f => f.value
    let ran := runAll cfg selected getValue
    match collectAll ran.1 with
    | .error e => (.error e, st, ran.2)
    | .ok results =>
      if silent then (.ok (results.all (fun t => t.valid)), st, ran.2)
      else
        let hr := handleValidationResults st results
        match hr.2 with
        | some e => (.error e, hr.1, ran.2)
        | none => (.ok (results.all (fun t => t.valid)), hr.1, ran.2)

/-- validator.js `validateScopes`: a no-op resolving true while paused;
otherwise validates every field (the ownerId filter is a wildcard here),
joins, and unless silent runs one batched result-handling pass. -/
def validateScopes (cfg : Cfg) (st : VState) (silent : Bool) : Except JsErr Bool × VState × List String :=
  if st.paused then (.ok true, st, [])
  else
    let ran := runAll cfg st.fields (fun f => f.value)
    match collectAll ran.1 with
    | .error e => (.error e, st, ran.2)
    | .ok results =>
      if silent then (.ok (results.all (fun t => t.valid)), st, ran.2)
      else
        let hr := handleValidationResults st results
        match hr.2 with
        | some e => (.error e, hr.1, ran.2)
        | none => (.ok (results.all (fun t => t.valid)), hr.1, ran.2)

/-- The test `/^(.+)\.\*$/` of `validate`: at least one character followed
by a literal `.*` at the end. -/
def isScopeStar (s : String) : Bool :=
  match s.toList.reverse with
  | '*' :: '.' :: _ :: _ => true
  | _ => false

/-- The captured group of `/^(.+)\.\*$/`: everything before the final
`.*`. -/
def scopeStarMatched (s : String) : String :=
  String.mk (s.toList.take (s.toList.length - 2))

/-- validator.js `validate`: an already-resolved true while paused; a null
selector delegates to `validateScopes`; `*` delegates to `validateAll`
(forwarding silent); `scope.*` delegates to `validateAll` on that scope
(not forwarding silent, as in the source); otherwise resolves one field —
on a miss `_handleFieldNotFound` decides by the strict flag (the source
passes the global `name`, not the selector) — marks it pending unless
silent, defaults the value to the field's own, validates, and unless silent
feeds the single result through result handling; resolves the result's
validity.  The third component lists the invoked rule validate
functions. -/
def validate (cfg : Cfg) (st : VState) (selector : Option String) (value : JsValue) (silent : Bool) : Except JsErr Bool × VState × List String :=
  if st.paused then (.ok true, st, [])
  else
    match selector with
    | none => validateScopes cfg st silent
    | some s =>
      if s = "*" then validateAll cfg st ValuesArg.noneV silent
      else if isScopeStar s then validateAll cfg st (ValuesArg.scope (scopeStarMatched s)) false
      else
        match resolveField st.fields s with
        | none => (handleFieldNotFound cfg globalName, st, [])
        | some field =>
          let st1 := if silent then st else { st with fields := markPending st.fields field.id }
          let value1 := if value = JsValue.undef then field.value else value
          let vr := validateField cfg field value1 false
          match vr.1 with
          | .error e => (.error e, st1, vr.2)
          | .ok r =>
            if silent then (.ok r.valid, st1, vr.2)
            else
              let hr := handleValidationResults st1 [r]
              match hr.2 with
              | some e => (.error e, hr.1, vr.2)
              | none => (.ok r.valid, hr.1, vr.2)

/-- The list of per-rule test results of a field, in declaration order
(specification helper for the bail theorem). -/
def testsOf (cfg : Cfg) (field : Field) (value : JsValue) : List TestResult :=
  field.rules.map (fun rp => testRule cfg field value rp.1 rp.2)

/-- The errors of the first synchronously-invalid test result, if any
(specification helper: where an active bail stops the scan). -/
def firstSyncFail : List TestResult → Option (List FieldError)
  | [] => none
  | .sync v es :: rest => if v then firstSyncFail rest else some es
  | _ :: rest => firstSyncFail rest

/-- Projection of an asynchronous test result to its valid flag and error
messages (used to state concrete evaluations). -/
def asyncView : TestResult → Option (Bool × List String)
  | .async v es => some (v, es.map (fun e => e.msg))
  | _ => none

end Validator

/-- Rendering of a data payload, used by the concrete test dictionary so
that distinct data objects yield distinct messages. -/
def dataRepr : JsData → String
  | .empty => "empty"
  | .undef => "undef"
  | .obj n => "obj" ++ Nat.repr n

/-- A concrete dictionary for concrete evaluations: the field message
encodes the field, the rule and the data payload. -/
def testDict : Dictionary :=
  { getAttribute := fun _ n _ => n,
    getFieldMessage := fun _ fieldName ruleName _ _ data =>
      fieldName ++ ":" ++ ruleName ++ ":data=" ++ dataRepr data,
    getDateFormat := fun _ => JsValue.str "DD/MM/YYYY" }

/-- A concrete configuration over a given registry: test dictionary,
locale "en", `fastExit` on, strict mode on. -/
def mkCfg (reg : Registry) : Cfg :=
  { registry := reg, dict := testDict, locale := "en", fastExit := true, strict := true }

/-- A plain unscoped required text field named "email" with no rules. -/
def fldBase : Field :=
  { id := "f1", vmId := none, name := "email", scope := none, rules := [],
    bails := none, isRequired := true, isDisabled := false, rejectsFalse := false,
    fieldAlias := none, dependencies := [], value := JsValue.str "stored", flags := {} }

/-- A rule whose validate function synchronously returns false. -/
def syncFailRule : RuleEntry := { validate := fun _ _ => .sync (.b false), options := {} }

/-- A rule whose validate function synchronously returns true. -/
def syncPassRule : RuleEntry := { validate := fun _ _ => .sync (.b true), options := {} }

/-- A rule whose validate function returns a promise resolving to false. -/
def asyncFailRule : RuleEntry := { validate := fun _ _ => .promise (.single (.b false)), options := {} }

/-- A rule whose validate function returns a promise resolving to true. -/
def asyncPassRule : RuleEntry := { validate := fun _ _ => .promise (.single (.b true)), options := {} }

/-- A rule resolving to an array whose first element is invalid and carries
a data object. -/
def arrFailRule : RuleEntry :=
  { validate := fun _ _ => .promise (.arr [.obj false (.obj 1), .b true]), options := {} }

/-- A rule resolving to an array of valid outcomes. -/
def arrPassRule : RuleEntry :=
  { validate := fun _ _ => .promise (.arr [.b true, .obj true (.obj 2)]), options := {} }

/-- Configuration for the bail/async interaction: an async-failing rule
declared before a sync-failing one. -/
def cfgC1 : Cfg := mkCfg [("asy", asyncFailRule), ("syn", syncFailRule)]

/-- Field declaring the async-failing rule before the sync-failing one. -/
def fldC1 : Field := { fldBase with rules := [("asy", []), ("syn", [])] }

/-- Configuration with one async-passing rule. -/
def cfgC1w : Cfg := mkCfg [("asy", asyncPassRule)]

/-- Field with only the async-passing rule. -/
def fldC1w : Field := { fldBase with rules := [("asy", [])] }

/-- Configuration with the array-outcome rules. -/
def cfgC2 : Cfg := mkCfg [("arr", arrFailRule), ("arrok", arrPassRule)]

/-- Field declaring the failing array-outcome rule. -/
def fldC2 : Field := { fldBase with rules := [("arr", [])] }

/-- Configuration with one sync-failing rule, for the disabled-field
claims. -/
def cfgC3 : Cfg := mkCfg [("req", syncFailRule)]

/-- A disabled field with `bails: false` and a failing rule. -/
def fldC3 : Field :=
  { fldBase with rules := [("req", [])], isDisabled := true, bails := some false }

/-- A disabled field with `bails` left undefined and a failing rule. -/
def fldC3w : Field := { fldBase with rules := [("req", [])], isDisabled := true }

/-- Configuration with two sync-failing rules, for the bail claim. -/
def cfgC4 : Cfg := mkCfg [("ra", syncFailRule), ("rb", syncFailRule)]

/-- Field declaring the two sync-failing rules in order. -/
def fldC4 : Field := { fldBase with rules := [("ra", []), ("rb", [])] }

/-- The error produced by the first failing rule of `fldC4`. -/
def errC4 : FieldError :=
  Validator.createFieldError cfgC4 fldC4 { name := "ra", params := [], options := {} } JsData.empty none

/-- The error produced by `fldC3`'s failing rule. -/
def errC3 : FieldError :=
  Validator.createFieldError cfgC3 fldC3 { name := "req", params := [], options := {} } JsData.empty none

/-- A paused validator state. -/
def stPaused : VState := { fields := [], errors := [], paused := true }

/-- A running validator state with no fields. -/
def stEmpty : VState := { fields := [], errors := [], paused := false }

/-- A stored error with id "f1" (for ErrorBag evaluations). -/
def err8a : FieldError :=
  { id := some "f1", vmId := none, field := "email", msg := "m1", rule := "required",
    scope := none, regenerate := none }

/-- A stored error whose id "zzz" is unrelated to the selector "#f1". -/
def err8b : FieldError :=
  { id := some "zzz", vmId := none, field := "age", msg := "m2", rule := "min",
    scope := none, regenerate := none }

/-- A scoped stored error (scope "s1", field "email"). -/
def err7a : FieldError :=
  { id := some "f7", vmId := none, field := "email", msg := "m7", rule := "required",
    scope := some "s1", regenerate := none }

/-- An error whose field name literally contains the selector's dot. -/
def err7b : FieldError :=
  { id := some "f8", vmId := none, field := "s1.email", msg := "m8", rule := "required",
    scope := none, regenerate := none }

end VV

/-
Theorems.  Each claim's theorem carries the claim id in its doc comment.
-/

namespace VV

theorem removeFirstById_cons_ne (id : String) (x : FieldError) (l : List FieldError)
    (hx : x.id ≠ some id) :
    ErrorBag.removeFirstById id (x :: l) = x :: ErrorBag.removeFirstById id l := by
  simp [ErrorBag.removeFirstById, hx]

theorem update_cons_ne (id : String) (sc : Option String) (x : FieldError) (l : List FieldError)
    (hx : x.id ≠ some id) :
    ErrorBag.update id sc (x :: l) = x :: ErrorBag.update id sc l := by
  unfold ErrorBag.update
  rw [List.find?_cons_of_neg _ (by simp [hx]), removeFirstById_cons_ne id x l hx]
  cases hf : l.find? (fun i => i.id == some id) <;> simp

theorem update_cons_found (id : String) (sc : Option String) (e : FieldError) (post : List FieldError)
    (he : e.id = some id) :
    ErrorBag.update id sc (e :: post) = post ++ [{ e with scope := sc }] := by
  unfold ErrorBag.update
  rw [List.find?_cons_of_pos _ (by simp [he])]
  simp [ErrorBag.removeFirstById, he]

/-- C9: `update(id, {scope})` removes the first error carrying the id from
its position, overwrites its scope, and re-appends it at the end; all other
errors are unchanged and keep their relative order; with no matching id the
bag is unchanged. -/
theorem errorbag_update_spec (id : String) (sc : Option String) :
    (∀ items : List FieldError, (∀ x ∈ items, x.id ≠ some id) →
      ErrorBag.update id sc items = items) ∧
    (∀ (pre : List FieldError) (e : FieldError) (post : List FieldError),
      (∀ x ∈ pre, x.id ≠ some id) → e.id = some id →
      ErrorBag.update id sc (pre ++ e :: post) = pre ++ post ++ [{ e with scope := sc }]) := by
  constructor
  · intro items h
    unfold ErrorBag.update
    rw [List.find?_eq_none.mpr (by intro x hx; simpa using h x hx)]
  · intro pre e post hpre he
    induction pre with
    | nil => simpa using update_cons_found id sc e post he
    | cons x pr ih =>
      have hx : x.id ≠ some id := hpre x (by simp)
      have hpr : ∀ y ∈ pr, y.id ≠ some id := fun y hy => hpre y (by simp [hy])
      calc ErrorBag.update id sc ((x :: pr) ++ e :: post)
          = x :: ErrorBag.update id sc (pr ++ e :: post) := update_cons_ne id sc x _ hx
        _ = x :: (pr ++ post ++ [{ e with scope := sc }]) := by rw [ih hpr]
        _ = (x :: pr) ++ post ++ [{ e with scope := sc }] := by simp

/-- Witness for C9 at concrete inputs: no-op without the id, and the
relocation of the matching error to the end with the new scope. -/
theorem errorbag_update_spec_witness :
    ErrorBag.update "nope" (some "s2") [err8a, err8b] = [err8a, err8b] ∧
    ErrorBag.update "zzz" (some "s2") [err8a, err8b, err7a] =
      [err8a, err7a] ++ [{ err8b with scope := some "s2" }] := by
  constructor
  · exact (errorbag_update_spec "nope" (some "s2")).1 [err8a, err8b] (by decide)
  · have h := (errorbag_update_spec "zzz" (some "s2")).2 [err8a] err8b [err7a]
      (by decide) (by decide)
    simpa using h

/-- C10: `regenerate()` keeps the number and order of the errors, keeps
every stored property except `msg`, and rewrites `msg` to the stored
closure's result exactly when that closure is callable; errors added via
the legacy `add` signature carry a null `regenerate` and are never
rewritten. -/
theorem errorbag_regenerate_spec :
    (∀ items : List FieldError, (ErrorBag.regenerate items).length = items.length) ∧
    (∀ (items : List FieldError) (k : Nat) (h : k < items.length)
        (h2 : k < (ErrorBag.regenerate items).length),
      ((ErrorBag.regenerate items).get ⟨k, h2⟩).id = (items.get ⟨k, h⟩).id ∧
      ((ErrorBag.regenerate items).get ⟨k, h2⟩).vmId = (items.get ⟨k, h⟩).vmId ∧
      ((ErrorBag.regenerate items).get ⟨k, h2⟩).field = (items.get ⟨k, h⟩).field ∧
      ((ErrorBag.regenerate items).get ⟨k, h2⟩).scope = (items.get ⟨k, h⟩).scope ∧
      ((ErrorBag.regenerate items).get ⟨k, h2⟩).rule = (items.get ⟨k, h⟩).rule ∧
      ((ErrorBag.regenerate items).get ⟨k, h2⟩).regenerate = (items.get ⟨k, h⟩).regenerate ∧
      ((ErrorBag.regenerate items).get ⟨k, h2⟩).msg =
        (match (items.get ⟨k, h⟩).regenerate with
         | some f => f ()
         | none => (items.get ⟨k, h⟩).msg)) ∧
    (∀ (f m r : String) (sc : Option String),
      (ErrorBag.mkLegacyError f m r sc).regenerate = none ∧
      ErrorBag.regenerate [ErrorBag.mkLegacyError f m r sc] = [ErrorBag.mkLegacyError f m r sc]) := by
  refine ⟨?_, ?_, ?_⟩
  · intro items; simp [ErrorBag.regenerate]
  · intro items k h h2
    simp [ErrorBag.regenerate]
  · intro f m r sc
    exact ⟨rfl, rfl⟩

/-- Witness for C10 at concrete inputs: length preserved and the message
of an error without a regenerate closure is kept. -/
theorem errorbag_regenerate_spec_witness :
    (ErrorBag.regenerate [err8a, err8b]).length = 2 ∧
    ((ErrorBag.regenerate [err8a]).get ⟨0, by decide⟩).msg = "m1" ∧
    ErrorBag.regenerate [ErrorBag.mkLegacyError "a" "b" "c" none] =
      [ErrorBag.mkLegacyError "a" "b" "c" none] := by
  refine ⟨errorbag_regenerate_spec.1 [err8a, err8b], ?_, (errorbag_regenerate_spec.2.2 "a" "b" "c" none).2⟩
  have h := (errorbag_regenerate_spec.2.1 [err8a] 0 (by decide) (by decide)).2.2.2.2.2.2
  simpa using h

/-- C5: while the validator is paused, `validate`, `validateAll` and
`validateScopes` immediately resolve true, leave the whole state (fields,
flags, errors) unchanged, and invoke no rule validate function. -/
theorem paused_validate_noop (cfg : Cfg) (st : VState) (selector : Option String)
    (value : JsValue) (silent : Bool) (values : Validator.ValuesArg)
    (h : st.paused = true) :
    Validator.validate cfg st selector value silent = (.ok true, st, []) ∧
    Validator.validateAll cfg st values silent = (.ok true, st, []) ∧
    Validator.validateScopes cfg st silent = (.ok true, st, []) := by
  unfold Validator.validate Validator.validateAll Validator.validateScopes
  simp [h]

/-- Witness for C5 with a concrete paused state. -/
theorem paused_validate_noop_witness :
    stPaused.paused = true ∧
    Validator.validate cfgC3 stPaused (some "email") JsValue.undef false = (.ok true, stPaused, []) ∧
    Validator.validateAll cfgC3 stPaused Validator.ValuesArg.noneV false = (.ok true, stPaused, []) ∧
    Validator.validateScopes cfgC3 stPaused false = (.ok true, stPaused, []) := by
  have h := paused_validate_noop cfgC3 stPaused (some "email") JsValue.undef false
    Validator.ValuesArg.noneV rfl
  exact ⟨rfl, h.1, h.2.1, h.2.2⟩

/-- C6: a single-field selector that resolves to no field makes `validate`
reject with the field-not-found error in strict mode and resolve true in
non-strict mode, in both cases leaving the state (errors and flags)
untouched and invoking no rule. -/
theorem validate_not_found (cfg : Cfg) (st : VState) (s : String) (value : JsValue)
    (silent : Bool)
    (hp : st.paused = false) (hstar : s ≠ "*") (hss : Validator.isScopeStar s = false)
    (hres : Validator.resolveField st.fields s = none) :
    Validator.validate cfg st (some s) value silent =
      ((if cfg.strict then Except.error (JsErr.fieldNotFound Validator.globalName)
        else Except.ok true), st, []) := by
  unfold Validator.validate
  rw [hp]
  simp only [Bool.false_eq_true, if_false, hstar, if_neg, hss]
  rw [hres]
  unfold Validator.handleFieldNotFound
  cases hc : cfg.strict <;> simp [hc]

/-- Witness for C6: strict mode with an empty field bag rejects. -/
theorem validate_not_found_witness :
    stEmpty.paused = false ∧ cfgC3.strict = true ∧
    Validator.validate cfgC3 stEmpty (some "email") (JsValue.str "x") false =
      (Except.error (JsErr.fieldNotFound Validator.globalName), stEmpty, []) := by
  refine ⟨rfl, rfl, ?_⟩
  have h := validate_not_found cfgC3 stEmpty "email" (JsValue.str "x") false rfl
    (by decide) rfl rfl
  simpa using h

theorem testRule_known (cfg : Cfg) (field : Field) (value : JsValue) (name : String)
    (params : List JsValue) (v : Bool) (es : List FieldError)
    (h : Validator.testRule cfg field value name params = .sync v es) :
    (lookupRule cfg name).isSome = true := by
  cases hl : lookupRule cfg name with
  | none =>
    unfold Validator.testRule at h
    rw [hl] at h
    simp at h
  | some e => rfl

/-- C3 counterexample: a disabled field configured with `bails: false` and a
failing rule is not skipped — `_shouldSkip` tests `bails === false` before
`isDisabled` — so its rule's validate function runs (invocation list
`["req"]`) and the result is invalid with one error, against the claim that
disabled fields short-circuit to valid regardless of the bails
configuration. -/
theorem disabled_field_counterexample :
    fldC3.isDisabled = true ∧ fldC3.bails = some false ∧
    (Validator.validateField cfgC3 fldC3 (JsValue.str "x") false).2 = ["req"] ∧
    (Validator.validateField cfgC3 fldC3 (JsValue.str "x") false).1.map
      (fun r => (r.valid, r.errors.map (fun e => e.rule))) = .ok (false, ["req"]) := by
  exact ⟨rfl, rfl, rfl, rfl⟩

/-- C3 (amended): a disabled field short-circuits to a valid result with no
errors and no rule invocation provided its `bails` option is not the
explicit `false`; with `bails: false` the pipeline runs regardless. -/
theorem disabled_field_skip (cfg : Cfg) (field : Field) (value : JsValue)
    (hd : field.isDisabled = true) (hb : field.bails ≠ some false) :
    Validator.validateField cfg field value false =
      (.ok { valid := true, id := field.id, field := field.name, scope := field.scope,
             errors := [] }, []) := by
  simp [Validator.validateField, Validator.shouldSkip, hd, hb]

/-- Witness for C3 at a concrete disabled field with undefined `bails`. -/
theorem disabled_field_skip_witness :
    fldC3w.isDisabled = true ∧ fldC3w.bails ≠ some false ∧
    Validator.validateField cfgC3 fldC3w (JsValue.str "x") false =
      (.ok { valid := true, id := "f1", field := "email", scope := none, errors := [] }, []) := by
  refine ⟨rfl, by decide, ?_⟩
  have h := disabled_field_skip cfgC3 fldC3w (JsValue.str "x") rfl (by decide)
  simpa using h

/-- C2 counterexample: a promise resolving to an array whose first element
is invalid and carries a data object produces a FieldError formatted with
the empty data `{}` — not with the first element's data — since `_test`
initialises `data = {}` and never overwrites it in the array branch. -/
theorem array_data_counterexample :
    Validator.asyncView (Validator.testRule cfgC2 fldC2 (JsValue.str "v") "arr" []) =
      some (false, ["email:arr:data=empty"]) ∧
    Validator.formatErrorMessage cfgC2 fldC2
        { name := "arr", params := [], options := {} } (JsData.obj 1) none =
      "email:arr:data=obj1" ∧
    ("email:arr:data=empty" : String) ≠ "email:arr:data=obj1" := by
  exact ⟨rfl, rfl, by decide⟩

/-- C2 (amended): for a promise resolving to an array of outcomes, `_test`
yields valid = the conjunction over all elements, and on invalid the
FieldError is created with the empty data object — the data of every
element, the first included, is discarded. -/
theorem test_array_semantics (cfg : Cfg) (field : Field) (value : JsValue) (name : String)
    (params : List JsValue) (ent : RuleEntry) (os : List RuleOutcome)
    (hl : lookupRule cfg name = some ent)
    (hv : ent.validate value (Validator.buildParams cfg field name ent.options params).1 =
            .promise (.arr os)) :
    Validator.testRule cfg field value name params =
      .async (os.all Validator.outcomeValid)
        (if os.all Validator.outcomeValid then []
         else [Validator.createFieldError cfg field
                 { name := name, params := params, options := ent.options }
                 JsData.empty (Validator.buildParams cfg field name ent.options params).2]) := by
  unfold Validator.testRule
  rw [hl]
  simp only [hv]

/-- Witness for C2 at a concrete all-valid array outcome. -/
theorem test_array_semantics_witness :
    lookupRule cfgC2 "arrok" = some arrPassRule ∧
    Validator.testRule cfgC2 fldC2 (JsValue.str "v") "arrok" [] = .async true [] := by
  refine ⟨rfl, ?_⟩
  have h := test_array_semantics cfgC2 fldC2 (JsValue.str "v") "arrok" [] arrPassRule
    [.b true, .obj true (.obj 2)] rfl rfl
  simpa using h

/-- C8 (code bug evaluation): for a `#` selector, `_makeCandidateFilters`
returns a bare function instead of the `{isPrimary, isAlt}` record every
caller destructures, so `_match`/`first`/`remove`/`collect` throw a
TypeError on any non-empty bag; moreover the id comparison in that bare
function is a nested arrow used as an always-truthy value, so it reduces to
the rule check alone and holds even for an item whose id is unrelated to
the selector. -/
theorem hash_selector_broken :
    ErrorBag.matchSelector "#f1" [err8a] = .error (.typeError "isPrimary is not a function") ∧
    ErrorBag.first "#f1" none [err8a] = .error (.typeError "isPrimary is not a function") ∧
    ErrorBag.remove "#f1" none [err8a] = .error (.typeError "isPrimary is not a function") ∧
    ErrorBag.collectField "#f1" none [err8a] = .error (.typeError "isPrimary is not a function") ∧
    ErrorBag.makeCandidateFilters "#f1" = some (.bare (ErrorBag.mkMatchesRule none)) ∧
    ErrorBag.mkMatchesRule none err8b = true := by
  exact ⟨rfl, rfl, rfl, rfl, rfl, rfl⟩

/-- C4: with bail active and two synchronously failing rules, the scan
records exactly the first rule's single error, halts there, and never
invokes the second rule's validate function (invocation list contains only
the first rule). -/
theorem bail_two_sync_failures (cfg : Cfg) (field : Field) (value : JsValue)
    (a b : String) (pa pb : List JsValue) (ea eb : FieldError)
    (hrules : field.rules = [(a, pa), (b, pb)])
    (hskip : Validator.shouldSkip field value = false)
    (hbail : Validator.shouldBail cfg field = true)
    (hta : Validator.testRule cfg field value a pa = .sync false [ea])
    (htb : Validator.testRule cfg field value b pb = .sync false [eb]) :
    Validator.validateField cfg field value false =
      (.ok { valid := false, errors := [ea], id := field.id, field := field.name,
             scope := field.scope }, [a]) := by
  have hk := testRule_known cfg field value a pa false [ea] hta
  unfold Validator.validateField
  rw [hskip]
  simp only [Bool.false_eq_true, if_false, hrules]
  simp [Validator.validateLoop, hta, hbail, hk]

/-- Witness for C4 at two concrete failing rules. -/
theorem bail_two_sync_failures_witness :
    Validator.testRule cfgC4 fldC4 (JsValue.str "v") "rb" [] = .sync false
      [Validator.createFieldError cfgC4 fldC4
        { name := "rb", params := [], options := {} } JsData.empty none] ∧
    Validator.validateField cfgC4 fldC4 (JsValue.str "v") false =
      (.ok { valid := false, errors := [errC4], id := "f1", field := "email",
             scope := none }, ["ra"]) := by
  refine ⟨rfl, ?_⟩
  have h := bail_two_sync_failures cfgC4 fldC4 (JsValue.str "v") "ra" "rb" [] [] errC4
    (Validator.createFieldError cfgC4 fldC4
      { name := "rb", params := [], options := {} } JsData.empty none)
    rfl rfl rfl rfl rfl
  simpa using h


theorem validateLoop_syncFail (cfg : Cfg) (field : Field) (value : JsValue)
    (rules : List (String × List JsValue)) (es : List FieldError)
    (h : Validator.firstSyncFail
          (rules.map (fun rp => Validator.testRule cfg field value rp.1 rp.2)) = some es) :
    (Validator.validateLoop cfg field value true rules).errors = es ∧
    (Validator.validateLoop cfg field value true rules).isExitEarly = true := by
  induction rules with
  | nil => simp [Validator.firstSyncFail] at h
  | cons hd tl ih =>
    obtain ⟨name, params⟩ := hd
    cases ht : Validator.testRule cfg field value name params with
    | rejected e =>
      rw [List.map_cons, ht] at h
      rw [show Validator.firstSyncFail (Validator.TestResult.rejected e ::
            tl.map (fun rp => Validator.testRule cfg field value rp.1 rp.2)) =
          Validator.firstSyncFail
            (tl.map (fun rp => Validator.testRule cfg field value rp.1 rp.2)) from rfl] at h
      have hi := ih h
      simp [Validator.validateLoop, ht, hi.1, hi.2]
    | async v es2 =>
      rw [List.map_cons, ht] at h
      rw [show Validator.firstSyncFail (Validator.TestResult.async v es2 ::
            tl.map (fun rp => Validator.testRule cfg field value rp.1 rp.2)) =
          Validator.firstSyncFail
            (tl.map (fun rp => Validator.testRule cfg field value rp.1 rp.2)) from rfl] at h
      have hi := ih h
      simp [Validator.validateLoop, ht, hi.1, hi.2]
    | sync v es2 =>
      rw [List.map_cons, ht] at h
      cases v with
      | true =>
        simp only [Validator.firstSyncFail, if_true] at h
        have hi := ih h
        simp [Validator.validateLoop, ht, hi.1, hi.2]
      | false =>
        simp only [Validator.firstSyncFail, Bool.false_eq_true, if_false,
          Option.some.injEq] at h
        subst h
        simp [Validator.validateLoop, ht]

theorem validateLoop_noSyncFail (cfg : Cfg) (field : Field) (value : JsValue)
    (rules : List (String × List JsValue))
    (h : Validator.firstSyncFail
          (rules.map (fun rp => Validator.testRule cfg field value rp.1 rp.2)) = none) :
    (Validator.validateLoop cfg field value true rules).promises =
      (rules.map (fun rp => Validator.testRule cfg field value rp.1 rp.2)).map Validator.settle ∧
    (Validator.validateLoop cfg field value true rules).errors = [] ∧
    (Validator.validateLoop cfg field value true rules).isExitEarly = false := by
  induction rules with
  | nil => simp [Validator.validateLoop]
  | cons hd tl ih =>
    obtain ⟨name, params⟩ := hd
    cases ht : Validator.testRule cfg field value name params with
    | rejected e =>
      rw [List.map_cons, ht] at h
      rw [show Validator.firstSyncFail (Validator.TestResult.rejected e ::
            tl.map (fun rp => Validator.testRule cfg field value rp.1 rp.2)) =
          Validator.firstSyncFail
            (tl.map (fun rp => Validator.testRule cfg field value rp.1 rp.2)) from rfl] at h
      have hi := ih h
      simp [Validator.validateLoop, ht, hi.1, hi.2.1, hi.2.2, Validator.settle]
    | async v es2 =>
      rw [List.map_cons, ht] at h
      rw [show Validator.firstSyncFail (Validator.TestResult.async v es2 ::
            tl.map (fun rp => Validator.testRule cfg field value rp.1 rp.2)) =
          Validator.firstSyncFail
            (tl.map (fun rp => Validator.testRule cfg field value rp.1 rp.2)) from rfl] at h
      have hi := ih h
      simp [Validator.validateLoop, ht, hi.1, hi.2.1, hi.2.2, Validator.settle]
    | sync v es2 =>
      rw [List.map_cons, ht] at h
      cases v with
      | true =>
        simp only [Validator.firstSyncFail, if_true] at h
        have hi := ih h
        simp [Validator.validateLoop, ht, hi.1, hi.2.1, hi.2.2, Validator.settle]
      | false =>
        simp [Validator.firstSyncFail] at h

/-- C1 (amended): with bail active (and the skip policy not applying), the
scan of `_validate` stops at the first synchronously-invalid rule outcome
and the field result is invalid with exactly that outcome's errors — the
asynchronous outcomes already started before the failure are dropped
without being awaited and contribute neither validity nor errors.  Only
when the scan finds no synchronous failure are all outcomes awaited and
aggregated: validity is the conjunction over the awaited outcomes and the
errors of invalid outcomes are concatenated in rule-declaration order. -/
theorem validate_bail_spec (cfg : Cfg) (field : Field) (value : JsValue)
    (hskip : Validator.shouldSkip field value = false)
    (hbail : Validator.shouldBail cfg field = true) :
    (∀ es, Validator.firstSyncFail (Validator.testsOf cfg field value) = some es →
      (Validator.validateField cfg field value false).1 =
        .ok { valid := false, errors := es, id := field.id, field := field.name,
              scope := field.scope }) ∧
    (Validator.firstSyncFail (Validator.testsOf cfg field value) = none →
      (Validator.validateField cfg field value false).1 =
        (Validator.promiseAll ((Validator.testsOf cfg field value).map Validator.settle)).map
          (Validator.aggregate { valid := true, errors := [], id := field.id,
                                 field := field.name, scope := field.scope })) := by
  have hfil : (field.rules.filter fun rp =>
      if !false then true
      else
        match lookupRule cfg rp.1 with
        | none => true
        | some e => e.options.immediate) = field.rules :=
    List.filter_eq_self.mpr (fun a _ => rfl)
  constructor
  · intro es h
    rw [Validator.testsOf] at h
    have hl := validateLoop_syncFail cfg field value field.rules es h
    unfold Validator.validateField
    rw [hskip]
    simp only [Bool.false_eq_true, if_false, hfil, hbail]
    rw [hl.2]
    simp [hl.1]
  · intro h
    rw [Validator.testsOf] at h
    have hl := validateLoop_noSyncFail cfg field value field.rules h
    unfold Validator.validateField
    rw [hskip]
    simp only [Bool.false_eq_true, if_false, hfil, hbail]
    rw [hl.2.2]
    simp only [Bool.false_eq_true, if_false, hl.1, hl.2.1]
    rw [Validator.testsOf]
    cases hpa : Validator.promiseAll
        ((field.rules.map (fun rp => Validator.testRule cfg field value rp.1 rp.2)).map
          Validator.settle) <;> simp [hpa, Except.map]

/-- Witness for C1 at a concrete field whose only rule resolves
asynchronously to valid. -/
theorem validate_bail_spec_witness :
    Validator.shouldSkip fldC1w (JsValue.str "v") = false ∧
    Validator.shouldBail cfgC1w fldC1w = true ∧
    Validator.firstSyncFail (Validator.testsOf cfgC1w fldC1w (JsValue.str "v")) = none ∧
    (Validator.validateField cfgC1w fldC1w (JsValue.str "v") false).1 =
      .ok { valid := true, errors := [], id := "f1", field := "email", scope := none } := by
  refine ⟨rfl, rfl, rfl, ?_⟩
  have h := (validate_bail_spec cfgC1w fldC1w (JsValue.str "v") rfl rfl).2 rfl
  simpa using h

/-- C1 counterexample: with bail active, an async-failing rule declared
before a sync-failing rule does run (invocation list `["asy", "syn"]`) and
its awaited outcome is invalid with one error, yet the field result
contains only the synchronous bail error `["syn"]` — the async outcome
is discarded, against the claim that started async outcomes are awaited
and their errors concatenated in declaration order. -/
theorem bail_discards_async_counterexample :
    (Validator.validateField cfgC1 fldC1 (JsValue.str "v") false).2 = ["asy", "syn"] ∧
    Validator.asyncView (Validator.testRule cfgC1 fldC1 (JsValue.str "v") "asy" []) =
      some (false, ["email:asy:data=undef"]) ∧
    (Validator.validateField cfgC1 fldC1 (JsValue.str "v") false).1.map
      (fun r => (r.valid, r.errors.map (fun e => e.rule))) = .ok (false, ["syn"]) := by
  exact ⟨rfl, rfl, rfl⟩


theorem matchFold_primary (p a : FieldError → Bool) (v : FieldError) :
    ∀ (items : List FieldError), items ≠ [] → ∀ alt : Option FieldError,
      ErrorBag.matchFold p a (some v) alt items = some v := by
  intro items
  induction items with
  | nil => intro h; exact absurd rfl h
  | cons x rest ih =>
    intro _ alt
    cases rest with
    | nil => simp [ErrorBag.matchFold]
    | cons y t =>
      simp only [ErrorBag.matchFold, Option.isSome_some, if_true]
      exact ih (by simp) alt

theorem matchFold_none (p a : FieldError → Bool) :
    ∀ (items : List FieldError), items ≠ [] → ∀ alt : Option FieldError,
      ErrorBag.matchFold p a none alt items =
        (match items.find? p with
         | some e => some e
         | none =>
           match ErrorBag.lastMatch a items with
           | some e => some e
           | none => alt) := by
  intro items
  induction items with
  | nil => intro h; exact absurd rfl h
  | cons x rest ih =>
    intro _ alt
    cases rest with
    | nil =>
      cases hp : p x <;> cases ha : a x <;>
        simp [ErrorBag.matchFold, ErrorBag.lastMatch, List.find?, hp, ha]
    | cons y t =>
      simp only [ErrorBag.matchFold, Option.isSome_none, Bool.false_eq_true, if_false]
      cases hp : p x with
      | true =>
        simp only [if_true]
        rw [List.find?_cons_of_pos _ hp]
        simp only []
        exact matchFold_primary p a x (y :: t) (by simp) _
      | false =>
        simp only [Bool.false_eq_true, if_false]
        rw [List.find?_cons_of_neg _ (by simp [hp])]
        rw [ih (by simp) (if a x = true then some x else alt)]
        cases hf : List.find? p (y :: t) with
        | some e => simp
        | none =>
          simp only []
          rw [show ErrorBag.lastMatch a (x :: y :: t) =
              (match ErrorBag.lastMatch a (y :: t) with
               | some e => some e
               | none => if a x then some x else none) from rfl]
          cases hl : ErrorBag.lastMatch a (y :: t) with
          | some e => simp
          | none => cases ha : a x <;> simp [ha]

/-- C7: for a selector that is not an id selector (and that the selector
regex parses), `_match` scans in insertion order and returns the earliest
item satisfying the primary predicate (exact scope — no-scope selectors
match only unscoped items —, exact name, exact rule if specified) when one
exists; otherwise the last-seen item satisfying the alt predicate (field
name literally equal to "scope.name"); otherwise no match. -/
theorem errorbag_first_match_policy (selector : String) (items : List FieldError)
    (sc : Option String) (nm : String) (rl : Option String)
    (hp : ErrorBag.parseSelectorChars selector.toList = some (sc, nm, rl))
    (hh : ¬ selector.toList.head? = some '#') :
    ErrorBag.matchSelector selector items =
      .ok (ErrorBag.firstMatchSpec (ErrorBag.mkIsPrimary sc nm rl)
            (ErrorBag.mkIsAlt sc nm rl) items) := by
  unfold ErrorBag.matchSelector ErrorBag.makeCandidateFilters
  rw [hp]
  simp only []
  rw [if_neg hh]
  simp only []
  congr 1
  cases items with
  | nil => rfl
  | cons x rest =>
    rw [matchFold_none (ErrorBag.mkIsPrimary sc nm rl) (ErrorBag.mkIsAlt sc nm rl)
      (x :: rest) (by simp) none]
    unfold ErrorBag.firstMatchSpec
    cases hf : (x :: rest).find? (ErrorBag.mkIsPrimary sc nm rl) <;>
      cases hl : ErrorBag.lastMatch (ErrorBag.mkIsAlt sc nm rl) (x :: rest) <;> simp [hf, hl]

/-- Witness for C7 at a concrete scoped selector over a bag holding an
unrelated item, an alt match and a later primary match: the primary match
is selected. -/
theorem errorbag_first_match_policy_witness :
    ErrorBag.parseSelectorChars ("s1.email").toList = some (some "s1", "email", none) ∧
    ErrorBag.matchSelector "s1.email" [err8b, err7b, err7a] =
      .ok (ErrorBag.firstMatchSpec (ErrorBag.mkIsPrimary (some "s1") "email" none)
            (ErrorBag.mkIsAlt (some "s1") "email" none) [err8b, err7b, err7a]) ∧
    ErrorBag.matchSelector "s1.email" [err8b, err7b, err7a] = .ok (some err7a) ∧
    ErrorBag.matchSelector "s1.email" [err8b, err7b] = .ok (some err7b) := by
  refine ⟨rfl, ?_, rfl, rfl⟩
  exact errorbag_first_match_policy "s1.email" [err8b, err7b, err7a]
    (some "s1") "email" none rfl (by decide)

end VV
